import Mathlib

/-!
Shallow embedding of the `memoize` proc-macro crate (src/inner/src/lib.rs)
and of the runtime behaviour of the code it generates, together with proofs
of the specified properties.

Token streams produced by the macro are modelled symbolically: types as `Ty`,
cache container types as `CacheType`, initializer expressions as `CacheInit`,
forwarded argument expressions as `FwdExpr`, and the emitted declarations as
the `Output` structure (in the emission order of lines 448-459 of the source).
-/

set_option autoImplicit false

namespace Memoize

/-- A symbolic model of a Rust type token stream appearing in the macro
output. `instant` is `std::time::Instant`; `tuple` is a parenthesized
tuple `(T1, ..., Tn)`. -/
inductive Ty where
  | base (name : String)
  | tuple (ts : List Ty)
  | instant

/-- One parsed `CacheOption`, mirroring `enum CacheOption` (lib.rs lines
28-36).  Expression- and path-valued options are modelled as strings. -/
inductive CacheOption where
  | LRUMaxEntries (cap : Nat)
  | TimeToLive (sec : String)
  | SharedCache
  | CustomHasher (hasher : String)
  | HasherInit (init : String)
  | Ignore (ident : String)
deriving DecidableEq

/-- The accumulated option record, mirroring `struct CacheOptions`
(lib.rs lines 18-26). -/
structure CacheOptions where
  lru_max_entries : Option Nat
  time_to_live : Option String
  shared_cache : Bool
  custom_hasher : Option String
  custom_hasher_initializer : Option String
  ignore : List String
deriving DecidableEq

/-- `CacheOptions::default()` (lib.rs line 97). -/
def defaultCacheOptions : CacheOptions :=
  { lru_max_entries := none
    time_to_live := none
    shared_cache := false
    custom_hasher := none
    custom_hasher_initializer := none
    ignore := [] }

/-- `impl Parse for CacheOption` (lib.rs lines 40-91): with the `full`
feature disabled, `Capacity` and `TimeToLive` are rejected with a feature
error before the option value is even consumed; every other recognized
option parses unconditionally. -/
def parseCacheOption (featureFull : Bool) : CacheOption → Except String CacheOption
  | .LRUMaxEntries cap =>
      if featureFull then .ok (.LRUMaxEntries cap)
      else .error "memoize error: Capacity specified, but the feature 'full' is not enabled! To fix this, compile with `--features=full`."
  | .TimeToLive sec =>
      if featureFull then .ok (.TimeToLive sec)
      else .error "memoize error: TimeToLive specified, but the feature 'full' is not enabled! To fix this, compile with `--features=full`."
  | .SharedCache => .ok .SharedCache
  | .CustomHasher hasher => .ok (.CustomHasher hasher)
  | .HasherInit init => .ok (.HasherInit init)
  | .Ignore ident => .ok (.Ignore ident)

/-- `input.parse_terminated(CacheOption::parse)` (lib.rs lines 95-96):
each comma-separated option is parsed in order, the first parse error
aborting the whole attribute parse. -/
def parseOptionList (featureFull : Bool) : List CacheOption → Except String (List CacheOption)
  | [] => .ok []
  | o :: rest => do
      let o' ← parseCacheOption featureFull o
      let rest' ← parseOptionList featureFull rest
      .ok (o' :: rest')

/-- One iteration of the option-accumulation loop (lib.rs lines 99-108):
scalar options overwrite, `Ignore` pushes. -/
def applyOption (opts : CacheOptions) : CacheOption → CacheOptions
  | .LRUMaxEntries cap => { opts with lru_max_entries := some cap }
  | .TimeToLive sec => { opts with time_to_live := some sec }
  | .CustomHasher hasher => { opts with custom_hasher := some hasher }
  | .HasherInit init => { opts with custom_hasher_initializer := some init }
  | .SharedCache => { opts with shared_cache := true }
  | .Ignore ident => { opts with ignore := opts.ignore ++ [ident] }

/-- The `for opt in f` accumulation loop (lib.rs lines 99-108). -/
def foldOptions : List CacheOption → CacheOptions → CacheOptions
  | [], acc => acc
  | o :: rest, acc => foldOptions rest (applyOption acc o)

/-- `impl Parse for CacheOptions` (lib.rs lines 93-110): parse every
option, then fold them over the default record. -/
def parseOptions (featureFull : Bool) (raw : List CacheOption) : Except String CacheOptions :=
  (parseOptionList featureFull raw).map fun os => foldOptions os defaultCacheOptions

/-- A symbolic cache container type, the first component returned by
`store::construct_cache` (full-feature version, lib.rs lines 159-203). -/
inductive CacheType where
  | hashMap (key value : Ty)
  | customMap (hasher : String) (key value : Ty)
  | lruCache (key value : Ty)
  | compileError (msg : String)

/-- A symbolic cache initializer expression, the second component returned
by `store::construct_cache` (full-feature version). -/
inductive CacheInit where
  | hashMapNew
  | customHasherNew (hasher : String)
  | customHasherInitExpr (init : String)
  | lruCacheNew (cap : Nat)
deriving DecidableEq

/-- The `let value_type = match options.time_to_live ...` wrap (lib.rs
lines 164-167): with a ttl the stored value type becomes
`(std::time::Instant, V)`. -/
def wrapValueType (ttl : Option String) (value_type : Ty) : Ty :=
  match ttl with
  | none => value_type
  | some _ => Ty.tuple [Ty.instant, value_type]

/-- `store::construct_cache`, full-feature version (lib.rs lines 159-203). -/
def construct_cache (options : CacheOptions) (key_type value_type : Ty) :
    CacheType × CacheInit :=
  let value_type := wrapValueType options.time_to_live value_type
  match options.lru_max_entries with
  | none =>
      match options.custom_hasher with
      | some hasher =>
          match options.custom_hasher_initializer with
          | some hasher_init =>
              (.customMap hasher key_type value_type, .customHasherInitExpr hasher_init)
          | none =>
              (.customMap hasher key_type value_type, .customHasherNew hasher)
      | none => (.hashMap key_type value_type, .hashMapNew)
  | some cap =>
      match options.custom_hasher with
      | some _ =>
          (.compileError "Cannot use LRU cache and a custom hasher at the same time",
           .hashMapNew)
      | none => (.lruCache key_type value_type, .lruCacheNew cap)

/-- `store::cache_access_methods`, full-feature version (lib.rs lines
207-215): the (insert, lookup) method names emitted into the wrapper. -/
def cache_access_methods (options : CacheOptions) : String × String :=
  match options.lru_max_entries with
  | none => ("insert", "get")
  | some _ => ("put", "get")

/-- `store::construct_cache`, default (non-`full`) version (lib.rs lines
120-137): no ttl wrap, no LRU, and `HasherInit` is ignored. -/
def construct_cache_nofeature (options : CacheOptions) (key_type value_type : Ty) :
    CacheType × CacheInit :=
  match options.custom_hasher with
  | some hasher => (.customMap hasher key_type value_type, .customHasherNew hasher)
  | none => (.hashMap key_type value_type, .hashMapNew)

/-- `store::cache_access_methods`, default (non-`full`) version (lib.rs
lines 141-145). -/
def cache_access_methods_nofeature (_options : CacheOptions) : String × String :=
  ("insert", "get")

/-- An argument pattern: a plain identifier binding or any other pattern. -/
inductive Pat where
  | ident (name : String)
  | other (descr : String)
deriving DecidableEq

/-- One input of a function signature: a receiver (`self`-style) or a
typed pattern, mirroring `syn::FnArg`. -/
inductive FnArg where
  | receiver
  | typed (pat : Pat) (ty : Ty)

/-- A function signature: identifier, ordered inputs, optional return type
(`none` models `ReturnType::Default`). -/
structure Signature where
  ident : String
  inputs : List FnArg
  output : Option Ty

/-- A function item: visibility plus signature, mirroring the parts of
`syn::ItemFn` the macro reads. -/
structure ItemFn where
  vis : String
  sig : Signature

/-- `struct FnArgument` (lib.rs lines 463-472). -/
structure FnArgument where
  arg_type : Ty
  arg_name : String
  is_memoized : Bool

/-- `check_signature` (lib.rs lines 474-505): walk the inputs in order;
receivers are skipped by the `if let FnArg::Typed` guard; a plain
identifier pattern is classified by membership of its name in the
`Ignore` list; any other pattern aborts with an error. -/
def check_signature (inputs : List FnArg) (options : CacheOptions) :
    Except String (List FnArgument) :=
  match inputs with
  | [] => .ok []
  | .receiver :: rest => check_signature rest options
  | .typed pat ty :: rest =>
      match pat with
      | .ident name => do
          let params ← check_signature rest options
          .ok ({ arg_type := ty
                 arg_name := name
                 is_memoized := !options.ignore.contains name } :: params)
      | .other _ => .error "Cannot memoize arbitrary patterns!"

/-- `memoized_input_types` (lib.rs lines 296-305). -/
def memoized_input_types (input_params : List FnArgument) : List Ty :=
  input_params.filterMap fun p => if p.is_memoized then some p.arg_type else none

/-- `memoized_input_names` (lib.rs lines 306-315). -/
def memoized_input_names (input_params : List FnArgument) : List String :=
  input_params.filterMap fun p => if p.is_memoized then some p.arg_name else none

/-- A forwarded argument expression (lib.rs lines 317-329): either
`name.clone()` for a memoized argument or the bare `name` for an ignored
one. -/
inductive FwdExpr where
  | cloned (name : String)
  | plain (name : String)
deriving DecidableEq

/-- `fn_forwarded_exprs` (lib.rs lines 319-329). -/
def fn_forwarded_exprs (input_params : List FnArgument) : List FwdExpr :=
  input_params.map fun p =>
    if p.is_memoized then .cloned p.arg_name else .plain p.arg_name

/-- `input_tuple_type` (lib.rs line 331): the ordered tuple of the
memoized input types, used as the cache key type. -/
def input_tuple_type (input_params : List FnArgument) : Ty :=
  Ty.tuple (memoized_input_types input_params)

/-- `return_type` (lib.rs lines 332-335): `()` for `ReturnType::Default`. -/
def return_type (sig : Signature) : Ty :=
  match sig.output with
  | none => Ty.tuple []
  | some ty => ty

/-- The renamed original function declaration (lib.rs lines 357-360):
`func.clone()` with only the identifier replaced. -/
structure RenamedFnDecl where
  vis : String
  name : String
  inputs : List FnArg
  output : Option Ty

/-- A generated auxiliary function declaration (flush or size), carrying
its visibility (lib.rs lines 420-446). -/
structure AuxFnDecl where
  vis : String
  name : String
deriving DecidableEq

/-- The generated storage declaration (lib.rs lines 337-355): a
`lazy_static` `Mutex` when shared, a `thread_local` `RefCell` otherwise. -/
structure StoreDecl where
  shared : Bool
  name : String
  cache_type : CacheType
  cache_init : CacheInit

/-- The generated wrapper function (lib.rs lines 454-457) together with
the pieces of the memoizer block it embeds (lines 362-416). -/
structure WrapperDecl where
  vis : String
  sig : Signature
  shared : Bool
  uses_ttl : Bool
  forwarding : List FwdExpr
  insert_method : String
  get_method : String

/-- The full macro output on success, with exactly the five declarations
emitted by the final quote (lib.rs lines 448-459), in emission order. -/
structure Output where
  renamedFn : RenamedFnDecl
  flusher : AuxFnDecl
  sizeFn : AuxFnDecl
  store : StoreDecl
  wrapper : WrapperDecl

/-- The result of running the macro: a successful token-stream output, an
output consisting only of a `compile_error!` invocation, or a proc-macro
panic (the `.unwrap()` on the attribute parse, lib.rs line 287). -/
inductive GenResult where
  | panicked (msg : String)
  | errorOnly (msg : String)
  | ok (out : Output)

/-- `str::to_uppercase` as applied to the map name (lib.rs line 338),
modelled by uppercasing every character. -/
def toUpperName (s : String) : String := ⟨s.data.map Char.toUpper⟩

/-- The body of `memoize` after the receiver check and the option parse
(lib.rs lines 289-460): check the signature, build the storage and the
five output declarations. -/
def memoizeRest (featureFull : Bool) (options : CacheOptions) (func : ItemFn) :
    GenResult :=
  let fn_name := func.sig.ident
  let renamed_name := "memoized_original_" ++ fn_name
  let flush_name := "memoized_flush_" ++ fn_name
  let size_name := "memoized_size_" ++ fn_name
  let map_name := "memoized_mapping_" ++ fn_name
  match check_signature func.sig.inputs options with
  | .error e => .errorOnly e
  | .ok input_params =>
      let store_ident := toUpperName map_name
      let cache_pair :=
        if featureFull then
          construct_cache options (input_tuple_type input_params) (return_type func.sig)
        else
          construct_cache_nofeature options (input_tuple_type input_params)
            (return_type func.sig)
      let access :=
        if featureFull then cache_access_methods options
        else cache_access_methods_nofeature options
      .ok
        { renamedFn :=
            { vis := func.vis
              name := renamed_name
              inputs := func.sig.inputs
              output := func.sig.output }
          flusher := { vis := func.vis, name := flush_name }
          sizeFn := { vis := func.vis, name := size_name }
          store :=
            { shared := options.shared_cache
              name := store_ident
              cache_type := cache_pair.1
              cache_init := cache_pair.2 }
          wrapper :=
            { vis := func.vis
              sig := func.sig
              shared := options.shared_cache
              uses_ttl := options.time_to_live.isSome
              forwarding := fn_forwarded_exprs input_params
              insert_method := access.1
              get_method := access.2 } }

/-- `pub fn memoize` (lib.rs lines 272-460): the receiver check (lines
282-284) runs first and emits a lone `compile_error!`; the attribute parse
(line 287) runs next and panics on a parse error via `.unwrap()`; then the
rest of the generation runs. -/
def memoize (featureFull : Bool) (attr : List CacheOption) (func : ItemFn) :
    GenResult :=
  match func.sig.inputs.head? with
  | some FnArg.receiver => .errorOnly "Cannot memoize methods!"
  | _ =>
    match parseOptions featureFull attr with
    | .error e => .panicked e
    | .ok options => memoizeRest featureFull options func

/-- A macro result is runnable when it is a successful output whose
storage declaration does not embed a `compile_error!` token. -/
def runnableResult : GenResult → Prop
  | .panicked _ => False
  | .errorOnly _ => False
  | .ok out => ∀ msg, out.store.cache_type ≠ CacheType.compileError msg

/-- `std::num::NonZeroUsize::new` (used in the LRU initializer, lib.rs
line 198): `none` exactly on zero. -/
def nonZeroUsizeNew (n : Nat) : Option Nat :=
  if n = 0 then none else some n

/-- `Option::unwrap()`: panics (modelled as `.error`) on `none`. -/
def unwrapOrPanic {α : Type} : Option α → Except String α
  | none => .error "called Option::unwrap() on a None value"
  | some a => .ok a

/-- Runtime evaluation of the emitted LRU initializer
`LruCache::new(NonZeroUsize::new(cap).unwrap())` (lib.rs line 198):
returns the usable capacity or a runtime panic. -/
def evalLruCacheNew (cap : Nat) : Except String Nat :=
  unwrapOrPanic (nonZeroUsizeNew cap)

/-! ## Runtime model of the generated wrapper (unbounded map, no ttl)

The generated wrapper (`memoizer`, lib.rs lines 382-416, instantiated with
the `HashMap` backend's `insert`/`get` of lines 212 and 369-370) is modelled
over an association-list map.  The state additionally logs every invocation
of the renamed original function, so that "the original implementation has
run exactly once for `k`" is expressible. -/

/-- `HashMap::get` on the association-list model: the value of the first
entry whose key equals `k`. -/
def hashmapGet {K V : Type} [DecidableEq K] : List (K × V) → K → Option V
  | [], _ => none
  | (k', v) :: rest, k => if k' = k then some v else hashmapGet rest k

/-- `HashMap::insert` (overwrite) on the association-list model. -/
def hashmapInsert {K V : Type} [DecidableEq K] : List (K × V) → K → V → List (K × V)
  | [], k, v => [(k, v)]
  | (k', v') :: rest, k, v =>
      if k' = k then (k, v) :: rest else (k', v') :: hashmapInsert rest k v

/-- Model state of one generated cache: the stored map, plus the log of
keys with which the renamed original implementation has been invoked. -/
structure MemoState (K V : Type) where
  cache : List (K × V)
  calls : List K

/-- The initial state: empty storage (lib.rs lines 341-355), the original
never invoked. -/
def initMemoState (K V : Type) : MemoState K V := { cache := [], calls := [] }

/-- One call of the generated wrapper, no-ttl variant (lib.rs lines
397-416 and 369-370): read the memo under the handle; on a hit return the
cached clone; on a miss invoke the renamed original with the forwarded
arguments, then re-acquire the handle and insert the result. -/
def wrapperCall {K V : Type} [DecidableEq K] (f : K → V) (s : MemoState K V) (k : K) :
    V × MemoState K V :=
  match hashmapGet s.cache k with
  | some v => (v, s)
  | none =>
      let r := f k
      (r, { cache := hashmapInsert s.cache k r, calls := s.calls ++ [k] })

/-- The generated `memoized_flush_*` function (lib.rs lines 420-432):
clears every entry of the storage. -/
def memoized_flush {K V : Type} (s : MemoState K V) : MemoState K V :=
  { cache := [], calls := s.calls }

/-- The generated `memoized_size_*` function (lib.rs lines 434-446):
the entry count of the storage. -/
def memoized_size {K V : Type} (s : MemoState K V) : Nat :=
  s.cache.length

/-- Run a sequence of wrapper calls, collecting the returned values. -/
def runCalls {K V : Type} [DecidableEq K] (f : K → V) :
    List K → MemoState K V → List V × MemoState K V
  | [], s => ([], s)
  | k :: ks, s =>
      let r := wrapperCall f s k
      let rest := runCalls f ks r.2
      (r.1 :: rest.1, rest.2)

/-! ## Runtime model of the generated wrapper with ttl

With `TimeToLive` configured the stored values are
`(std::time::Instant, V)` pairs and the read is filtered by
`last_updated.elapsed() < ttl` (lib.rs lines 164-167 and 372-379).
Instants are modelled as `Nat` timestamps; `elapsed()` at time `now` is
`now - stamp`. -/

/-- Model state of a ttl cache: timestamped entries plus the current
wall-clock time. -/
structure TtlState (K V : Type) where
  cache : List (K × (Nat × V))
  now : Nat

/-- The ttl `read_memo` expression (lib.rs lines 373-377):
`get(..).and_then(|(last_updated, v)| (last_updated.elapsed() < ttl).then(|| v.clone()))`. -/
def ttlReadMemo {K V : Type} [DecidableEq K] (ttl : Nat) (s : TtlState K V) (k : K) :
    Option V :=
  (hashmapGet s.cache k).bind fun lv =>
    if s.now - lv.1 < ttl then some lv.2 else none

/-- One call of the generated wrapper, ttl variant (lib.rs lines 397-416
with the ttl `read_memo`/`memoize` expressions of lines 372-379): a miss
recomputes and inserts `(Instant::now(), result)`, overwriting any stale
entry for the key. -/
def ttlWrapperCall {K V : Type} [DecidableEq K] (ttl : Nat) (f : K → V)
    (s : TtlState K V) (k : K) : V × TtlState K V :=
  match ttlReadMemo ttl s k with
  | some v => (v, s)
  | none =>
      let r := f k
      (r, { cache := hashmapInsert s.cache k (s.now, r), now := s.now })

/-! ## Model of the bounded LRU backend

The `lru::LruCache` container referenced by the emitted tokens (lib.rs
lines 197-198, 213) lives in an external crate; its operations are
modelled from the spec. -/

/-- Remove every entry with the given key. -/
def removeKey {K V : Type} [DecidableEq K] : List (K × V) → K → List (K × V)
  | [], _ => []
  | (k', v') :: rest, k =>
      if k' = k then removeKey rest k else (k', v') :: removeKey rest k

/-- Modelled from the spec: the bounded LRU storage backend (the external
`lru` crate's `LruCache`, absent from src/).  Entries are kept
most-recently-used first; the capacity bounds the entry count. -/
structure LruState (K V : Type) where
  cap : Nat
  entries : List (K × V)

/-- Modelled from the spec: `LruCache::put` — insert with recency update;
on overflow the least-recently-used (last) entry is evicted. -/
def lruPut {K V : Type} [DecidableEq K] (s : LruState K V) (k : K) (v : V) :
    LruState K V :=
  let entries := (k, v) :: removeKey s.entries k
  { cap := s.cap
    entries := if s.cap < entries.length then entries.dropLast else entries }

/-- Modelled from the spec: `LruCache::get` — lookup that marks the found
entry most recent. -/
def lruGet {K V : Type} [DecidableEq K] (s : LruState K V) (k : K) :
    Option V × LruState K V :=
  match hashmapGet s.entries k with
  | none => (none, s)
  | some v => (some v, { cap := s.cap, entries := (k, v) :: removeKey s.entries k })

/-! ## Handle-acquisition traces of the generated wrapper

The temporal claim about the storage handle is settled on the event trace
of the generated memoizer block: each `lock().unwrap()` /
`borrow_mut()` is an `acquire`, each guard drop (end of the enclosing
block or closure) a `release`. -/

/-- Events of one wrapper execution touching the storage handle or the
original implementation. -/
inductive HandleEvent where
  | acquire
  | lookupMemo
  | release
  | callOriginal
  | insertStore
deriving DecidableEq

/-- Miss-path event trace of the shared-cache memoizer (lib.rs lines
383-396): the first lock guard lives only inside the braced block around
`read_memo`; the original is called outside it; a second guard is taken
for the insert and dropped at function end. -/
def sharedMissEvents : List HandleEvent :=
  [.acquire, .lookupMemo, .release, .callOriginal, .acquire, .insertStore, .release]

/-- Hit-path event trace of the shared-cache memoizer (lib.rs lines
384-389): the guard is dropped when the early return leaves the block. -/
def sharedHitEvents : List HandleEvent :=
  [.acquire, .lookupMemo, .release]

/-- Miss-path event trace of the thread-local memoizer (lib.rs lines
398-415): each `with(...borrow_mut()...)` closure holds the borrow only
for the duration of `read_memo` and of the insert respectively. -/
def threadLocalMissEvents : List HandleEvent :=
  [.acquire, .lookupMemo, .release, .callOriginal, .acquire, .insertStore, .release]

/-- Hit-path event trace of the thread-local memoizer (lib.rs lines
399-405). -/
def threadLocalHitEvents : List HandleEvent :=
  [.acquire, .lookupMemo, .release]

/-- Effect of one event on the number of handles held. -/
def depthStep (d : Nat) : HandleEvent → Nat
  | .acquire => d + 1
  | .release => d - 1
  | _ => d

/-- The number of handles held after processing a trace, starting from
`d` held handles. -/
def depthFrom (d : Nat) : List HandleEvent → Nat
  | [] => d
  | e :: rest => depthFrom (depthStep d e) rest

/-- The number of handles held just before the event at index `i`. -/
def depthAt (tr : List HandleEvent) (i : Nat) : Nat :=
  depthFrom 0 (tr.take i)

/-- Every occurrence of the given event in the trace happens while no
handle is held. -/
def eventAtDepthZero (tr : List HandleEvent) (e : HandleEvent) : Bool :=
  (List.range tr.length).all fun i =>
    if tr.get? i = some e then depthAt tr i = 0 else true

/-- Expand a caller trace by substituting the callee's trace for each
`callOriginal` event: the trace of a re-entrant call. -/
def expandCall : List HandleEvent → List HandleEvent → List HandleEvent
  | [], _ => []
  | e :: rest, inner =>
      match e with
      | .callOriginal => inner ++ expandCall rest inner
      | _ => e :: expandCall rest inner

/-! ## Helper lemmas -/

theorem hashmapGet_insert_self {K V : Type} [DecidableEq K] (l : List (K × V))
    (k : K) (v : V) : hashmapGet (hashmapInsert l k v) k = some v := by
  induction l with
  | nil => simp [hashmapInsert, hashmapGet]
  | cons p rest ih =>
      obtain ⟨k', v'⟩ := p
      by_cases h : k' = k <;> simp [hashmapInsert, hashmapGet, h, ih]

theorem hashmapGet_insert_other {K V : Type} [DecidableEq K] (l : List (K × V))
    (k k' : K) (v : V) (h : k' ≠ k) :
    hashmapGet (hashmapInsert l k v) k' = hashmapGet l k' := by
  have h' : ¬ k = k' := fun hh => h hh.symm
  induction l with
  | nil => simp [hashmapInsert, hashmapGet, h']
  | cons p rest ih =>
      obtain ⟨k'', v''⟩ := p
      by_cases hk : k'' = k
      · subst hk
        simp [hashmapInsert, hashmapGet, h']
      · simp [hashmapInsert, hashmapGet, hk, ih]

/-- The invariant tying the cache contents of the runtime model to the
invocation log: a key is cached iff the original already ran for it, and
the cached value is the original's result. -/
def MemoInv {K V : Type} [DecidableEq K] (f : K → V) (s : MemoState K V) : Prop :=
  (∀ k, hashmapGet s.cache k = if k ∈ s.calls then some (f k) else none)
    ∧ s.calls.Nodup

theorem memoInv_init {K V : Type} [DecidableEq K] (f : K → V) :
    MemoInv f (initMemoState K V) := by
  constructor
  · intro k; simp [initMemoState, hashmapGet]
  · simp [initMemoState]

theorem wrapperCall_step {K V : Type} [DecidableEq K] (f : K → V)
    (s : MemoState K V) (k : K) (hInv : MemoInv f s) :
    (wrapperCall f s k).1 = f k
      ∧ MemoInv f (wrapperCall f s k).2
      ∧ (∀ k', k' ∈ (wrapperCall f s k).2.calls ↔ k' ∈ s.calls ∨ k' = k)
      ∧ (wrapperCall f s k).2.calls
          = (if k ∈ s.calls then s.calls else s.calls ++ [k]) := by
  obtain ⟨hcache, hnodup⟩ := hInv
  have hk := hcache k
  by_cases hmem : k ∈ s.calls
  · have hget : hashmapGet s.cache k = some (f k) := by simpa [hmem] using hk
    have hres : wrapperCall f s k = (f k, s) := by simp [wrapperCall, hget]
    refine ⟨by simp [hres], ?_, ?_, by simp [hres, hmem]⟩
    · simp only [hres]
      exact ⟨hcache, hnodup⟩
    · intro k'
      simp only [hres]
      constructor
      · intro h; exact Or.inl h
      · rintro (h | rfl)
        · exact h
        · exact hmem
  · have hget : hashmapGet s.cache k = none := by simpa [hmem] using hk
    have hres : wrapperCall f s k
        = (f k, { cache := hashmapInsert s.cache k (f k), calls := s.calls ++ [k] }) := by
      simp [wrapperCall, hget]
    refine ⟨by simp [hres], ⟨?_, ?_⟩, ?_, by simp [hres, hmem]⟩
    · intro k'
      by_cases hk' : k' = k
      · subst hk'
        simp [hres, hashmapGet_insert_self]
      · have := hcache k'
        simp [hres, hashmapGet_insert_other _ _ _ _ hk', this, hk']
    · simp [hres, List.nodup_append, hnodup, hmem]
    · intro k'
      simp [hres, or_comm]

theorem runCalls_spec {K V : Type} [DecidableEq K] (f : K → V) (ks : List K)
    (s : MemoState K V) (hInv : MemoInv f s) :
    (runCalls f ks s).1 = ks.map f
      ∧ MemoInv f (runCalls f ks s).2
      ∧ (∀ k, k ∈ (runCalls f ks s).2.calls ↔ k ∈ s.calls ∨ k ∈ ks) := by
  induction ks generalizing s with
  | nil => exact ⟨rfl, hInv, by simp [runCalls]⟩
  | cons k ks ih =>
      obtain ⟨hval, hInv', hmem, _⟩ := wrapperCall_step f s k hInv
      obtain ⟨ihval, ihInv, ihmem⟩ := ih (wrapperCall f s k).2 hInv'
      refine ⟨?_, ?_, ?_⟩
      · simp [runCalls, hval, ihval]
      · simpa [runCalls] using ihInv
      · intro k'
        have := ihmem k'
        simp only [runCalls, List.mem_cons]
        rw [this, hmem k']
        tauto

/-! ## Claim theorems -/

/-- Claim C1: for a deterministic wrapped function `f`, running any
sequence of wrapper calls from the fresh state invokes the renamed
original implementation exactly once for each memoized-argument tuple that
occurs in the sequence (and zero times for the rest), and every wrapper
call returns the original's result for its key — the later calls with an
equal key being served from the cache without a further invocation.  After
the flush operation runs, the next call with any key invokes the original
again (the same holds for the ttl variant after expiry, settled in the C6
theorem). -/
theorem C1_first_call_computes_then_cached {K V : Type} [DecidableEq K]
    (f : K → V) (ks : List K) (k : K) (s : MemoState K V) (k' : K) :
    (runCalls f ks (initMemoState K V)).1 = ks.map f
      ∧ (runCalls f ks (initMemoState K V)).2.calls.count k
          = (if k ∈ ks then 1 else 0)
      ∧ (wrapperCall f (memoized_flush s) k').1 = f k'
      ∧ (wrapperCall f (memoized_flush s) k').2.calls = s.calls ++ [k'] := by
  obtain ⟨hval, hInv, hmem⟩ := runCalls_spec f ks (initMemoState K V) (memoInv_init f)
  refine ⟨hval, ?_, ?_, ?_⟩
  · by_cases hk : k ∈ ks
    · have hmemk : k ∈ (runCalls f ks (initMemoState K V)).2.calls :=
        (hmem k).2 (Or.inr hk)
      rw [List.count_eq_one_of_mem hInv.2 hmemk]
      simp [hk]
    · have hnot : k ∉ (runCalls f ks (initMemoState K V)).2.calls := by
        intro h
        rcases (hmem k).1 h with h0 | h1
        · simp [initMemoState] at h0
        · exact hk h1
      simp [List.count_eq_zero.mpr hnot, hk]
  · simp [memoized_flush, wrapperCall, hashmapGet]
  · simp [memoized_flush, wrapperCall, hashmapGet]

/-- Claim C6: with ttl configured the stored value type is the pair
`(std::time::Instant, V)`; a ttl lookup hits exactly when the entry exists
and its elapsed age is strictly below the ttl; an expired entry is read as
a miss while staying in storage (the read itself is stateless, and a
wrapper call with a different key leaves the stale entry untouched) until
a wrapper call with the same key overwrites it with a fresh timestamp. -/
theorem C6_ttl_read_filtered {K V : Type} [DecidableEq K] (ttl : Nat) (e : String)
    (kT vT : Ty) (s : TtlState K V) (f : K → V) (k k' : K) (t : Nat) (v : V)
    (hentry : hashmapGet s.cache k = some (t, v))
    (hexpired : ttl ≤ s.now - t) (hne : k' ≠ k) :
    construct_cache ⟨none, some e, false, none, none, []⟩ kT vT
        = (.hashMap kT (.tuple [.instant, vT]), .hashMapNew)
      ∧ (∀ (s' : TtlState K V) (k₀ : K) (v₀ : V),
            ttlReadMemo ttl s' k₀ = some v₀
              ↔ ∃ t₀, hashmapGet s'.cache k₀ = some (t₀, v₀) ∧ s'.now - t₀ < ttl)
      ∧ ttlReadMemo ttl s k = none
      ∧ hashmapGet (ttlWrapperCall ttl f s k').2.cache k = some (t, v)
      ∧ hashmapGet (ttlWrapperCall ttl f s k).2.cache k = some (s.now, f k) := by
  have hmiss : ttlReadMemo ttl s k = none := by
    have hnl : ¬ (s.now - t < ttl) := not_lt.mpr hexpired
    simp [ttlReadMemo, hentry, hnl]
  refine ⟨rfl, ?_, hmiss, ?_, ?_⟩
  · intro s' k₀ v₀
    constructor
    · intro h
      cases hget : hashmapGet s'.cache k₀ with
      | none => simp [ttlReadMemo, hget] at h
      | some lv =>
          obtain ⟨t₀, v₀'⟩ := lv
          by_cases hlt : s'.now - t₀ < ttl
          · have hv : v₀' = v₀ := by simpa [ttlReadMemo, hget, hlt] using h
            exact ⟨t₀, by simp [hget, hv], hlt⟩
          · simp [ttlReadMemo, hget, hlt] at h
    · rintro ⟨t₀, hg, hlt⟩
      simp [ttlReadMemo, hg, hlt]
  · cases hread : ttlReadMemo ttl s k' with
    | some v₀ => simpa [ttlWrapperCall, hread] using hentry
    | none =>
        simpa [ttlWrapperCall, hread,
          hashmapGet_insert_other s.cache k' k _ (Ne.symm hne)] using hentry
  · simp [ttlWrapperCall, hmiss, hashmapGet_insert_self]

/-- Concrete instantiation of the C6 theorem at ttl 1, an entry of age 5,
and keys 0 and 1. -/
theorem C6_ttl_read_filtered_witness :
    construct_cache ⟨none, some "d", false, none, none, []⟩ (Ty.base "u32") (Ty.base "u32")
        = (.hashMap (Ty.base "u32") (.tuple [.instant, Ty.base "u32"]), .hashMapNew)
      ∧ (∀ (s' : TtlState Nat Nat) (k₀ : Nat) (v₀ : Nat),
            ttlReadMemo 1 s' k₀ = some v₀
              ↔ ∃ t₀, hashmapGet s'.cache k₀ = some (t₀, v₀) ∧ s'.now - t₀ < 1)
      ∧ ttlReadMemo 1 (⟨[(0, (0, 42))], 5⟩ : TtlState Nat Nat) 0 = none
      ∧ hashmapGet (ttlWrapperCall 1 (fun _ => 7) (⟨[(0, (0, 42))], 5⟩ : TtlState Nat Nat) 1).2.cache 0
          = some (0, 42)
      ∧ hashmapGet (ttlWrapperCall 1 (fun _ => 7) (⟨[(0, (0, 42))], 5⟩ : TtlState Nat Nat) 0).2.cache 0
          = some (5, 7) :=
  C6_ttl_read_filtered 1 "d" (Ty.base "u32") (Ty.base "u32")
    (⟨[(0, (0, 42))], 5⟩ : TtlState Nat Nat) (fun _ => 7) 0 1 0 42
    (by decide) (by decide) (by decide)

theorem check_signature_idents (inputs : List (String × Ty)) (opts : CacheOptions) :
    check_signature (inputs.map fun p => FnArg.typed (Pat.ident p.1) p.2) opts
      = .ok (inputs.map fun p =>
          { arg_type := p.2, arg_name := p.1
            is_memoized := !opts.ignore.contains p.1 }) := by
  induction inputs with
  | nil => rfl
  | cons p rest ih =>
      obtain ⟨n, t⟩ := p
      simp [check_signature, ih]
      rfl

theorem check_signature_err (inputs : List FnArg) (opts : CacheOptions)
    (d : String) (t : Ty) (h : FnArg.typed (Pat.other d) t ∈ inputs) :
    check_signature inputs opts = .error "Cannot memoize arbitrary patterns!" := by
  induction inputs with
  | nil => cases h
  | cons a rest ih =>
      cases a with
      | receiver =>
          have h' : FnArg.typed (Pat.other d) t ∈ rest := by
            rcases List.mem_cons.mp h with h0 | h1
            · simp at h0
            · exact h1
          simp [check_signature, ih h']
      | typed pat ty =>
          cases pat with
          | ident n =>
              have h' : FnArg.typed (Pat.other d) t ∈ rest := by
                rcases List.mem_cons.mp h with h0 | h1
                · simp at h0
                · exact h1
              simp [check_signature, ih h']
              rfl
          | other dd => simp [check_signature]

theorem memoized_input_types_cons (p : FnArgument) (rest : List FnArgument) :
    memoized_input_types (p :: rest)
      = if p.is_memoized then p.arg_type :: memoized_input_types rest
        else memoized_input_types rest := by
  by_cases hp : p.is_memoized <;> simp [memoized_input_types, hp]

theorem memoized_input_types_eq (params : List FnArgument) :
    memoized_input_types params
      = (params.filter (·.is_memoized)).map (·.arg_type) := by
  induction params with
  | nil => rfl
  | cons p rest ih =>
      rw [memoized_input_types_cons, List.filter_cons]
      by_cases hp : p.is_memoized <;> simp [hp, ih]

/-- Claim C4: for a receiver-free signature whose parameters all bind by
plain identifiers, `check_signature` classifies each parameter as ignored
exactly when its name occurs in the `Ignore` list and as memoized
otherwise, preserving declaration order; the emitted cache key type is the
ordered tuple of exactly the memoized parameters' types; and a signature
containing any parameter bound by a non-identifier pattern is rejected
with the build-time error instead. -/
theorem C4_argument_classification (inputs : List (String × Ty))
    (opts : CacheOptions) (badInputs : List FnArg) (d : String) (t : Ty)
    (hbad : FnArg.typed (Pat.other d) t ∈ badInputs) :
    check_signature (inputs.map fun p => FnArg.typed (Pat.ident p.1) p.2) opts
        = .ok (inputs.map fun p =>
            { arg_type := p.2, arg_name := p.1
              is_memoized := !opts.ignore.contains p.1 })
      ∧ (∀ params : List FnArgument,
            input_tuple_type params
              = Ty.tuple ((params.filter (·.is_memoized)).map (·.arg_type)))
      ∧ check_signature badInputs opts = .error "Cannot memoize arbitrary patterns!" :=
  ⟨check_signature_idents inputs opts,
   fun params => congrArg Ty.tuple (memoized_input_types_eq params),
   check_signature_err badInputs opts d t hbad⟩

/-- Concrete instantiation of the C4 theorem: one plain parameter `a`, and
a rejected signature binding by a tuple pattern. -/
theorem C4_argument_classification_witness :
    check_signature ([("a", Ty.base "u32")].map fun p => FnArg.typed (Pat.ident p.1) p.2)
        defaultCacheOptions
        = .ok ([("a", Ty.base "u32")].map fun p =>
            { arg_type := p.2, arg_name := p.1
              is_memoized := !defaultCacheOptions.ignore.contains p.1 })
      ∧ (∀ params : List FnArgument,
            input_tuple_type params
              = Ty.tuple ((params.filter (·.is_memoized)).map (·.arg_type)))
      ∧ check_signature [FnArg.typed (Pat.other "tuple pat") (Ty.base "u32")]
          defaultCacheOptions = .error "Cannot memoize arbitrary patterns!" :=
  C4_argument_classification [("a", Ty.base "u32")] defaultCacheOptions
    [FnArg.typed (Pat.other "tuple pat") (Ty.base "u32")] "tuple pat" (Ty.base "u32")
    (List.mem_singleton.mpr rfl)

/-- An example function item, `pub fn g(a: u32, flag: bool) -> u32`
(cf. spec Scenario B). -/
def exampleFn : ItemFn :=
  { vis := "pub"
    sig :=
      { ident := "g"
        inputs := [FnArg.typed (Pat.ident "a") (Ty.base "u32"),
                   FnArg.typed (Pat.ident "flag") (Ty.base "bool")]
        output := some (Ty.base "u32") } }

/-- Options ignoring the `flag` parameter of `exampleFn`. -/
def exampleOpts : CacheOptions :=
  { defaultCacheOptions with ignore := ["flag"] }

/-- The classification of `exampleFn`'s parameters under `exampleOpts`. -/
def exampleParams : List FnArgument :=
  [{ arg_type := Ty.base "u32", arg_name := "a", is_memoized := true },
   { arg_type := Ty.base "bool", arg_name := "flag", is_memoized := false }]

/-- Claim C5: in the generated wrapper's invocation of the renamed
original, the forwarded expression for the parameter at each position is
`name.clone()` (an independent copy) exactly when the parameter is
memoized, and the bare `name` (original ownership unchanged) when it is
ignored. -/
theorem C5_forwarding (featureFull : Bool) (opts : CacheOptions) (func : ItemFn)
    (out : Output) (params : List FnArgument)
    (hok : memoizeRest featureFull opts func = .ok out)
    (hsig : check_signature func.sig.inputs opts = .ok params) :
    out.wrapper.forwarding = fn_forwarded_exprs params
      ∧ ∀ (i : Nat) (p : FnArgument), params.get? i = some p →
          (fn_forwarded_exprs params).get? i
            = some (if p.is_memoized then FwdExpr.cloned p.arg_name
                    else FwdExpr.plain p.arg_name) := by
  constructor
  · simp only [memoizeRest, hsig, GenResult.ok.injEq] at hok
    rw [← hok]
  · intro i p hp
    rw [List.get?_eq_getElem?] at hp
    simp only [fn_forwarded_exprs, List.get?_eq_getElem?, List.getElem?_map, hp]
    rfl

/-- Concrete instantiation of the C5 theorem on `exampleFn` with `flag`
ignored: `a` is forwarded cloned, `flag` as-is. -/
theorem C5_forwarding_witness :
    ∃ out, memoizeRest true exampleOpts exampleFn = .ok out
      ∧ out.wrapper.forwarding = fn_forwarded_exprs exampleParams
      ∧ fn_forwarded_exprs exampleParams = [FwdExpr.cloned "a", FwdExpr.plain "flag"] :=
  ⟨_, rfl, (C5_forwarding true exampleOpts exampleFn _ exampleParams rfl rfl).1, rfl⟩

/-- Claim C8: every successful run of the generator on a function named
`f` emits exactly the five declarations of the `Output` record, named by
the fixed convention — the renamed implementation `memoized_original_f`,
a wrapper named `f` with the original signature and visibility, a flush
operation `memoized_flush_f`, a size operation `memoized_size_f`, and the
storage symbol `MEMOIZED_MAPPING_F` (the uppercased map name) — with flush
and size inheriting the original function's visibility. -/
theorem C8_naming (featureFull : Bool) (opts : CacheOptions) (func : ItemFn)
    (out : Output) (hok : memoizeRest featureFull opts func = .ok out) :
    out.renamedFn.name = "memoized_original_" ++ func.sig.ident
      ∧ out.renamedFn.vis = func.vis
      ∧ out.renamedFn.inputs = func.sig.inputs
      ∧ out.renamedFn.output = func.sig.output
      ∧ out.wrapper.sig = func.sig
      ∧ out.wrapper.vis = func.vis
      ∧ out.flusher.name = "memoized_flush_" ++ func.sig.ident
      ∧ out.flusher.vis = func.vis
      ∧ out.sizeFn.name = "memoized_size_" ++ func.sig.ident
      ∧ out.sizeFn.vis = func.vis
      ∧ out.store.name = toUpperName ("memoized_mapping_" ++ func.sig.ident) := by
  cases hsig : check_signature func.sig.inputs opts with
  | error e => simp [memoizeRest, hsig] at hok
  | ok params =>
      simp only [memoizeRest, hsig, GenResult.ok.injEq] at hok
      rw [← hok]
      exact ⟨rfl, rfl, rfl, rfl, rfl, rfl, rfl, rfl, rfl, rfl, rfl⟩

/-- Concrete instantiation of the C8 theorem on `exampleFn` (named `g`). -/
theorem C8_naming_witness :
    ∃ out, memoizeRest true defaultCacheOptions exampleFn = .ok out
      ∧ out.renamedFn.name = "memoized_original_" ++ exampleFn.sig.ident
      ∧ out.flusher.name = "memoized_flush_" ++ exampleFn.sig.ident
      ∧ out.flusher.vis = exampleFn.vis
      ∧ out.sizeFn.name = "memoized_size_" ++ exampleFn.sig.ident
      ∧ out.sizeFn.vis = exampleFn.vis
      ∧ out.store.name = toUpperName ("memoized_mapping_" ++ exampleFn.sig.ident)
      ∧ out.wrapper.sig = exampleFn.sig := by
  refine ⟨_, rfl, ?_⟩
  have h := C8_naming true defaultCacheOptions exampleFn _ rfl
  exact ⟨h.1, h.2.2.2.2.2.2.1, h.2.2.2.2.2.2.2.1, h.2.2.2.2.2.2.2.2.1,
    h.2.2.2.2.2.2.2.2.2.1, h.2.2.2.2.2.2.2.2.2.2, h.2.2.2.2.1⟩

theorem parseOptionList_full_ok (raw : List CacheOption) :
    parseOptionList true raw = .ok raw := by
  induction raw with
  | nil => rfl
  | cons o rest ih => cases o <;> simp [parseOptionList, parseCacheOption, ih] <;> rfl

theorem mem_tail_of_ne {α : Type} {a b : α} {l : List α}
    (h : a ∈ b :: l) (hne : a ≠ b) : a ∈ l := by
  rcases List.mem_cons.mp h with h0 | h1
  · exact absurd h0 hne
  · exact h1

theorem parseOptionList_capacity_err (raw : List CacheOption) (c : Nat)
    (h : CacheOption.LRUMaxEntries c ∈ raw) :
    ∃ e, parseOptionList false raw = .error e := by
  induction raw with
  | nil => cases h
  | cons o rest ih =>
      cases o with
      | LRUMaxEntries cap => exact ⟨_, rfl⟩
      | TimeToLive sec => exact ⟨_, rfl⟩
      | SharedCache =>
          obtain ⟨e, he⟩ := ih (mem_tail_of_ne h (by simp))
          exact ⟨e, by simp [parseOptionList, parseCacheOption, he]; rfl⟩
      | CustomHasher hasher =>
          obtain ⟨e, he⟩ := ih (mem_tail_of_ne h (by simp))
          exact ⟨e, by simp [parseOptionList, parseCacheOption, he]; rfl⟩
      | HasherInit init =>
          obtain ⟨e, he⟩ := ih (mem_tail_of_ne h (by simp))
          exact ⟨e, by simp [parseOptionList, parseCacheOption, he]; rfl⟩
      | Ignore ident =>
          obtain ⟨e, he⟩ := ih (mem_tail_of_ne h (by simp))
          exact ⟨e, by simp [parseOptionList, parseCacheOption, he]; rfl⟩

theorem foldOptions_lru_isSome (os : List CacheOption) (acc : CacheOptions)
    (h : acc.lru_max_entries.isSome) :
    (foldOptions os acc).lru_max_entries.isSome := by
  induction os generalizing acc with
  | nil => exact h
  | cons o rest ih => cases o <;> exact ih _ (by simpa [applyOption] using h)

theorem foldOptions_lru_of_mem (os : List CacheOption) (acc : CacheOptions)
    (c : Nat) (h : CacheOption.LRUMaxEntries c ∈ os) :
    (foldOptions os acc).lru_max_entries.isSome := by
  induction os generalizing acc with
  | nil => cases h
  | cons o rest ih =>
      cases o with
      | LRUMaxEntries cap =>
          exact foldOptions_lru_isSome rest _ (by simp [applyOption])
      | TimeToLive sec => exact ih _ (mem_tail_of_ne h (by simp))
      | SharedCache => exact ih _ (mem_tail_of_ne h (by simp))
      | CustomHasher hasher => exact ih _ (mem_tail_of_ne h (by simp))
      | HasherInit init => exact ih _ (mem_tail_of_ne h (by simp))
      | Ignore ident => exact ih _ (mem_tail_of_ne h (by simp))

theorem foldOptions_hasher_isSome (os : List CacheOption) (acc : CacheOptions)
    (h : acc.custom_hasher.isSome) :
    (foldOptions os acc).custom_hasher.isSome := by
  induction os generalizing acc with
  | nil => exact h
  | cons o rest ih => cases o <;> exact ih _ (by simpa [applyOption] using h)

theorem foldOptions_hasher_of_mem (os : List CacheOption) (acc : CacheOptions)
    (hasher : String) (h : CacheOption.CustomHasher hasher ∈ os) :
    (foldOptions os acc).custom_hasher.isSome := by
  induction os generalizing acc with
  | nil => cases h
  | cons o rest ih =>
      cases o with
      | CustomHasher hh =>
          exact foldOptions_hasher_isSome rest _ (by simp [applyOption])
      | LRUMaxEntries cap => exact ih _ (mem_tail_of_ne h (by simp))
      | TimeToLive sec => exact ih _ (mem_tail_of_ne h (by simp))
      | SharedCache => exact ih _ (mem_tail_of_ne h (by simp))
      | HasherInit init => exact ih _ (mem_tail_of_ne h (by simp))
      | Ignore ident => exact ih _ (mem_tail_of_ne h (by simp))

theorem construct_cache_conflict (opts : CacheOptions) (kT vT : Ty)
    (h1 : opts.lru_max_entries.isSome) (h2 : opts.custom_hasher.isSome) :
    (construct_cache opts kT vT).1
      = .compileError "Cannot use LRU cache and a custom hasher at the same time" := by
  obtain ⟨c, hc⟩ := Option.isSome_iff_exists.mp h1
  obtain ⟨hsh, hh⟩ := Option.isSome_iff_exists.mp h2
  simp [construct_cache, hc, hh]

theorem memoizeRest_conflict_not_runnable (opts : CacheOptions) (func : ItemFn)
    (h1 : opts.lru_max_entries.isSome) (h2 : opts.custom_hasher.isSome) :
    ¬ runnableResult (memoizeRest true opts func) := by
  cases hsig : check_signature func.sig.inputs opts with
  | error e => simp [memoizeRest, hsig, runnableResult]
  | ok params =>
      intro hr
      simp only [memoizeRest, hsig, if_true] at hr
      exact hr "Cannot use LRU cache and a custom hasher at the same time"
        (construct_cache_conflict opts _ _ h1 h2)

/-- Claim C2: an attribute configuration giving both a `Capacity` and a
`CustomHasher` never produces a runnable artifact — with the `full`
feature the storage declaration embeds a `compile_error!` token (or the
signature check already failed), and without it the attribute parse
aborts the macro; a receiver also aborts.  In every case the enclosing
program cannot compile. -/
theorem C2_capacity_hasher_conflict (featureFull : Bool) (raw : List CacheOption)
    (func : ItemFn) (c : Nat) (hasher : String)
    (hc : CacheOption.LRUMaxEntries c ∈ raw)
    (hh : CacheOption.CustomHasher hasher ∈ raw) :
    ¬ runnableResult (memoize featureFull raw func) := by
  intro hr
  rw [memoize] at hr
  rcases hhead : func.sig.inputs.head? with _ | a
  · rw [hhead] at hr
    cases featureFull with
    | false =>
        obtain ⟨e, he⟩ := parseOptionList_capacity_err raw c hc
        rw [show parseOptions false raw = .error e by simp [parseOptions, he, Except.map]] at hr
        simp [runnableResult] at hr
    | true =>
        rw [show parseOptions true raw
            = .ok (foldOptions raw defaultCacheOptions) by
          simp [parseOptions, parseOptionList_full_ok, Except.map]] at hr
        exact memoizeRest_conflict_not_runnable _ func
          (foldOptions_lru_of_mem raw _ c hc)
          (foldOptions_hasher_of_mem raw _ hasher hh) hr
  · cases a with
    | receiver =>
        rw [hhead] at hr
        simp [runnableResult] at hr
    | typed pat ty =>
        rw [hhead] at hr
        cases featureFull with
        | false =>
            obtain ⟨e, he⟩ := parseOptionList_capacity_err raw c hc
            rw [show parseOptions false raw = .error e by simp [parseOptions, he, Except.map]] at hr
            simp [runnableResult] at hr
        | true =>
            rw [show parseOptions true raw
                = .ok (foldOptions raw defaultCacheOptions) by
              simp [parseOptions, parseOptionList_full_ok, Except.map]] at hr
            exact memoizeRest_conflict_not_runnable _ func
              (foldOptions_lru_of_mem raw _ c hc)
              (foldOptions_hasher_of_mem raw _ hasher hh) hr

/-- Concrete instantiation of the C2 theorem: `Capacity: 1` together with
`CustomHasher: FxHashMap`, with and without the `full` feature. -/
theorem C2_capacity_hasher_conflict_witness :
    ¬ runnableResult (memoize true
        [CacheOption.LRUMaxEntries 1, CacheOption.CustomHasher "FxHashMap"] exampleFn)
      ∧ ¬ runnableResult (memoize false
        [CacheOption.LRUMaxEntries 1, CacheOption.CustomHasher "FxHashMap"] exampleFn) :=
  ⟨C2_capacity_hasher_conflict true _ exampleFn 1 "FxHashMap" (by simp) (by simp),
   C2_capacity_hasher_conflict false _ exampleFn 1 "FxHashMap" (by simp) (by simp)⟩

/-- The C3 claim fails on the capacity+customHasher conflict: the
generator still emits all five declarations (wrapper, flush, size and
storage included); the conflict error is only embedded in the storage
declaration's cache type. -/
theorem C3_counterexample :
    ∃ out, memoize true
        [CacheOption.LRUMaxEntries 1, CacheOption.CustomHasher "FxHashMap"] exampleFn
        = .ok out
      ∧ out.store.cache_type
          = .compileError "Cannot use LRU cache and a custom hasher at the same time"
      ∧ out.wrapper.sig = exampleFn.sig
      ∧ out.flusher.name = "memoized_flush_g"
      ∧ out.sizeFn.name = "memoized_size_g"
      ∧ out.store.name = "MEMOIZED_MAPPING_G" :=
  ⟨_, rfl, rfl, rfl, rfl, rfl, rfl⟩

/-- Claim C3 (amended): the receiver-style error and the non-identifier
parameter error abort generation with an output consisting only of the
error, and a feature-gated option (`Capacity`) without the `full`
capability aborts the generator with a proc-macro panic and no output at
all; the capacity+customHasher conflict however is detected only inside
the storage backend selector, after wrapper code is built — the output
still contains the wrapper, flush, size and storage declarations, with
the compile-error token embedded in the storage declaration's type (the
program still fails to compile, but not by an error-only output). -/
theorem C3_error_timing :
    (∀ (featureFull : Bool) (raw : List CacheOption) (func : ItemFn),
        func.sig.inputs.head? = some FnArg.receiver →
          memoize featureFull raw func = .errorOnly "Cannot memoize methods!")
  ∧ (∀ (featureFull : Bool) (opts : CacheOptions) (func : ItemFn) (d : String) (t : Ty),
        FnArg.typed (Pat.other d) t ∈ func.sig.inputs →
          memoizeRest featureFull opts func
            = .errorOnly "Cannot memoize arbitrary patterns!")
  ∧ (∀ (raw : List CacheOption) (func : ItemFn) (c : Nat),
        CacheOption.LRUMaxEntries c ∈ raw →
        func.sig.inputs.head? ≠ some FnArg.receiver →
          ∃ e, memoize false raw func = .panicked e)
  ∧ (∀ (opts : CacheOptions) (func : ItemFn) (params : List FnArgument)
        (c : Nat) (hasher : String),
        opts.lru_max_entries = some c →
        opts.custom_hasher = some hasher →
        check_signature func.sig.inputs opts = .ok params →
          ∃ out, memoizeRest true opts func = .ok out
            ∧ out.store.cache_type
                = .compileError "Cannot use LRU cache and a custom hasher at the same time") := by
  refine ⟨?_, ?_, ?_, ?_⟩
  · intro featureFull raw func hrecv
    rw [memoize, hrecv]
  · intro featureFull opts func d t hbad
    simp [memoizeRest, check_signature_err func.sig.inputs opts d t hbad]
  · intro raw func c hc hnorecv
    obtain ⟨e, he⟩ := parseOptionList_capacity_err raw c hc
    refine ⟨e, ?_⟩
    rw [memoize]
    rcases hhead : func.sig.inputs.head? with _ | a
    · simp [parseOptions, he, Except.map]
    · cases a with
      | receiver => exact absurd hhead hnorecv
      | typed pat ty => simp [parseOptions, he, Except.map]
  · intro opts func params c hasher hlru hhasher hsig
    cases hres : memoizeRest true opts func with
    | panicked e => simp [memoizeRest, hsig] at hres
    | errorOnly e => simp [memoizeRest, hsig] at hres
    | ok out =>
        refine ⟨out, rfl, ?_⟩
        simp only [memoizeRest, hsig, GenResult.ok.injEq] at hres
        rw [← hres]
        simpa using construct_cache_conflict opts (input_tuple_type params)
          (return_type func.sig) (by simp [hlru]) (by simp [hhasher])

/-- A function item with a receiver-style first parameter. -/
def recvFn : ItemFn :=
  { vis := ""
    sig := { ident := "m", inputs := [FnArg.receiver], output := none } }

/-- A function item with a non-identifier (tuple-pattern) parameter. -/
def badPatFn : ItemFn :=
  { vis := ""
    sig :=
      { ident := "h"
        inputs := [FnArg.typed (Pat.other "(x, y)") (Ty.base "(u32, u32)")]
        output := some (Ty.base "u32") } }

/-- Options with both a capacity and a custom hasher. -/
def conflictOpts : CacheOptions :=
  { defaultCacheOptions with
      lru_max_entries := some 1
      custom_hasher := some "FxHashMap" }

/-- Concrete instantiations of the four parts of the C3 amended theorem. -/
theorem C3_error_timing_witness :
    memoize true [] recvFn = .errorOnly "Cannot memoize methods!"
  ∧ memoizeRest true defaultCacheOptions badPatFn
      = .errorOnly "Cannot memoize arbitrary patterns!"
  ∧ (∃ e, memoize false [CacheOption.LRUMaxEntries 0] exampleFn = .panicked e)
  ∧ (∃ out, memoizeRest true conflictOpts exampleFn = .ok out
      ∧ out.store.cache_type
          = .compileError "Cannot use LRU cache and a custom hasher at the same time") :=
  ⟨C3_error_timing.1 true [] recvFn rfl,
   C3_error_timing.2.1 true defaultCacheOptions badPatFn "(x, y)" (Ty.base "(u32, u32)")
     (by simp [badPatFn]),
   C3_error_timing.2.2.1 [CacheOption.LRUMaxEntries 0] exampleFn 0 (by simp)
     (by simp [exampleFn]),
   C3_error_timing.2.2.2 conflictOpts exampleFn
     [{ arg_type := Ty.base "u32", arg_name := "a", is_memoized := true },
      { arg_type := Ty.base "bool", arg_name := "flag", is_memoized := true }]
     1 "FxHashMap" rfl rfl rfl⟩

theorem removeKey_of_get_none {K V : Type} [DecidableEq K] (l : List (K × V))
    (k : K) (h : hashmapGet l k = none) : removeKey l k = l := by
  induction l with
  | nil => rfl
  | cons p rest ih =>
      obtain ⟨k', v'⟩ := p
      by_cases hk : k' = k
      · simp [hashmapGet, hk] at h
      · simp only [hashmapGet, if_neg hk] at h
        simp [removeKey, hk, ih h]

/-- Claim C7: the storage backend selector maps the resolved configuration
as the spec's table states — no capacity and no custom hasher select the
unbounded `HashMap` with `insert`/`get`; a custom hasher (without
capacity) selects that hasher's map with the same method names (its
initializer honouring `HasherInit`); a capacity (without hasher) selects
the `lru` crate's bounded cache initialized with that capacity, with
`put`/`get` — and on the LRU model, `put` makes its entry most recent,
`get` marks a found entry most recent, and a `put` of a fresh key into a
full cache evicts exactly the least-recently-used (last) entry. -/
theorem C7_backend_selection {K V : Type} [DecidableEq K] (kT vT : Ty)
    (s : LruState K V) (k : K) (v : V)
    (hfull : s.entries.length = s.cap) (hpos : 0 < s.cap)
    (hfresh : hashmapGet s.entries k = none) :
    (∀ sh ign, construct_cache ⟨none, none, sh, none, none, ign⟩ kT vT
          = (.hashMap kT vT, .hashMapNew)
        ∧ cache_access_methods ⟨none, none, sh, none, none, ign⟩ = ("insert", "get"))
  ∧ (∀ hasher sh ign,
        construct_cache ⟨none, none, sh, some hasher, none, ign⟩ kT vT
            = (.customMap hasher kT vT, .customHasherNew hasher)
        ∧ (∀ hi, construct_cache ⟨none, none, sh, some hasher, some hi, ign⟩ kT vT
              = (.customMap hasher kT vT, .customHasherInitExpr hi))
        ∧ cache_access_methods ⟨none, none, sh, some hasher, none, ign⟩
            = ("insert", "get"))
  ∧ (∀ cap sh ign, construct_cache ⟨some cap, none, sh, none, none, ign⟩ kT vT
            = (.lruCache kT vT, .lruCacheNew cap)
        ∧ cache_access_methods ⟨some cap, none, sh, none, none, ign⟩ = ("put", "get"))
  ∧ (∀ (s' : LruState K V) (k' : K) (v' : V), 0 < s'.cap →
        (lruPut s' k' v').entries.head? = some (k', v'))
  ∧ (∀ (s' : LruState K V) (k' : K) (v' : V), hashmapGet s'.entries k' = some v' →
        (lruGet s' k').1 = some v'
          ∧ (lruGet s' k').2.entries.head? = some (k', v'))
  ∧ (lruPut s k v).entries = (k, v) :: s.entries.dropLast := by
  refine ⟨fun sh ign => ⟨rfl, rfl⟩,
    fun hasher sh ign => ⟨rfl, fun hi => rfl, rfl⟩,
    fun cap sh ign => ⟨rfl, rfl⟩, ?_, ?_, ?_⟩
  · intro s' k' v' hpos'
    cases hrm : removeKey s'.entries k' with
    | nil =>
        have hc : ¬ s'.cap < 1 := by omega
        simp [lruPut, hrm, hc]
    | cons e es =>
        simp only [lruPut, hrm]
        split <;> simp
  · intro s' k' v' hget
    simp [lruGet, hget]
  · have hrm : removeKey s.entries k = s.entries := removeKey_of_get_none _ _ hfresh
    cases hE : s.entries with
    | nil =>
        rw [hE] at hfull
        simp at hfull
        omega
    | cons e es =>
        rw [hE] at hrm hfull
        have hcond : s.cap < es.length + 1 + 1 := by
          simp at hfull
          omega
        simp [lruPut, hE, hrm, hcond]

/-- Concrete instantiation of the C7 theorem: a full LRU cache of
capacity 2 holding keys 1 (most recent) and 2; putting fresh key 3 evicts
key 2 and keeps key 1. -/
theorem C7_backend_selection_witness :
    (∀ sh ign, construct_cache ⟨none, none, sh, none, none, ign⟩
          (Ty.base "u32") (Ty.base "u32") = (.hashMap (Ty.base "u32") (Ty.base "u32"), .hashMapNew)
        ∧ cache_access_methods ⟨none, none, sh, none, none, ign⟩ = ("insert", "get"))
  ∧ (∀ hasher sh ign,
        construct_cache ⟨none, none, sh, some hasher, none, ign⟩
            (Ty.base "u32") (Ty.base "u32")
            = (.customMap hasher (Ty.base "u32") (Ty.base "u32"), .customHasherNew hasher)
        ∧ (∀ hi, construct_cache ⟨none, none, sh, some hasher, some hi, ign⟩
              (Ty.base "u32") (Ty.base "u32")
              = (.customMap hasher (Ty.base "u32") (Ty.base "u32"), .customHasherInitExpr hi))
        ∧ cache_access_methods ⟨none, none, sh, some hasher, none, ign⟩
            = ("insert", "get"))
  ∧ (∀ cap sh ign, construct_cache ⟨some cap, none, sh, none, none, ign⟩
            (Ty.base "u32") (Ty.base "u32")
            = (.lruCache (Ty.base "u32") (Ty.base "u32"), .lruCacheNew cap)
        ∧ cache_access_methods ⟨some cap, none, sh, none, none, ign⟩ = ("put", "get"))
  ∧ (∀ (s' : LruState Nat Nat) (k' : Nat) (v' : Nat), 0 < s'.cap →
        (lruPut s' k' v').entries.head? = some (k', v'))
  ∧ (∀ (s' : LruState Nat Nat) (k' : Nat) (v' : Nat), hashmapGet s'.entries k' = some v' →
        (lruGet s' k').1 = some v'
          ∧ (lruGet s' k').2.entries.head? = some (k', v'))
  ∧ (lruPut (⟨2, [(1, 10), (2, 20)]⟩ : LruState Nat Nat) 3 30).entries
      = (3, 30) :: [(1, 10), (2, 20)].dropLast :=
  C7_backend_selection (Ty.base "u32") (Ty.base "u32")
    (⟨2, [(1, 10), (2, 20)]⟩ : LruState Nat Nat) 3 30
    (by decide) (by decide) (by decide)

/-- Claim C9: in both memoizer variants the storage handle (the lock
guard or the `RefCell` borrow) is released before the original
implementation is invoked and re-acquired only afterwards to store the
result: on the miss-path traces the single `callOriginal` event happens
at handle depth zero, the single `insertStore` event happens after it
under exactly one re-acquired handle, and in a re-entrant execution (a
callee trace substituted at the call point) every `acquire` still happens
at depth zero — no deadlock or double-borrow panic on the handle. -/
theorem C9_handle_released_before_call :
    eventAtDepthZero sharedMissEvents .callOriginal = true
  ∧ eventAtDepthZero threadLocalMissEvents .callOriginal = true
  ∧ sharedMissEvents.count .callOriginal = 1
  ∧ threadLocalMissEvents.count .callOriginal = 1
  ∧ sharedMissEvents.count .insertStore = 1
  ∧ threadLocalMissEvents.count .insertStore = 1
  ∧ sharedMissEvents.get? 3 = some .callOriginal
  ∧ sharedMissEvents.get? 5 = some .insertStore
  ∧ depthAt sharedMissEvents 5 = 1
  ∧ threadLocalMissEvents.get? 3 = some .callOriginal
  ∧ threadLocalMissEvents.get? 5 = some .insertStore
  ∧ depthAt threadLocalMissEvents 5 = 1
  ∧ eventAtDepthZero (expandCall sharedMissEvents sharedMissEvents) .acquire = true
  ∧ eventAtDepthZero (expandCall sharedMissEvents sharedHitEvents) .acquire = true
  ∧ eventAtDepthZero (expandCall threadLocalMissEvents threadLocalMissEvents)
      .acquire = true
  ∧ eventAtDepthZero (expandCall threadLocalMissEvents threadLocalHitEvents)
      .acquire = true := by
  decide

/-- Claim C10: option parsing accepts every nonnegative integer literal
as `Capacity`, including 0, with no build-time error; with `Capacity: 0`
the macro succeeds and the emitted LRU storage initializer is
`LruCache::new(NonZeroUsize::new(0).unwrap())`, whose unwrap error branch
is reached when the initializer runs (a runtime panic on first storage
access); for every positive capacity the unwrap succeeds, so the error
branch is unreachable exactly under the precondition `capacity > 0`. -/
theorem C10_capacity_zero_panics (n c : Nat) (kT vT : Ty) (hc : 0 < c) :
    parseCacheOption true (.LRUMaxEntries n) = .ok (.LRUMaxEntries n)
  ∧ construct_cache ⟨some 0, none, false, none, none, []⟩ kT vT
      = (.lruCache kT vT, .lruCacheNew 0)
  ∧ (∃ out, memoize true [CacheOption.LRUMaxEntries 0] exampleFn = .ok out
        ∧ out.store.cache_init = .lruCacheNew 0)
  ∧ evalLruCacheNew 0 = .error "called Option::unwrap() on a None value"
  ∧ (∃ v, evalLruCacheNew c = .ok v) := by
  refine ⟨rfl, rfl, ⟨_, rfl, rfl⟩, rfl, ⟨c, ?_⟩⟩
  simp [evalLruCacheNew, nonZeroUsizeNew, unwrapOrPanic, hc.ne']

/-- Concrete instantiation of the C10 theorem at capacity literal 0 and
positive capacity 1. -/
theorem C10_capacity_zero_panics_witness :
    parseCacheOption true (.LRUMaxEntries 0) = .ok (.LRUMaxEntries 0)
  ∧ construct_cache ⟨some 0, none, false, none, none, []⟩ (Ty.base "u32") (Ty.base "u32")
      = (.lruCache (Ty.base "u32") (Ty.base "u32"), .lruCacheNew 0)
  ∧ (∃ out, memoize true [CacheOption.LRUMaxEntries 0] exampleFn = .ok out
        ∧ out.store.cache_init = .lruCacheNew 0)
  ∧ evalLruCacheNew 0 = .error "called Option::unwrap() on a None value"
  ∧ (∃ v, evalLruCacheNew 1 = .ok v) :=
  C10_capacity_zero_panics 0 1 (Ty.base "u32") (Ty.base "u32") (by decide)

end Memoize
